import Mathlib

/-!
# Verification of the Slowpoke tabular-to-protocol compiler

This file is a shallow embedding, in Lean 4, of the core pipeline of
`app_version2.py`: cell normalization (`sanitize_df`), header detection
(`detect_header_row`), plate-map building (`process_plate_map_df`,
`generate_plate_maps`), combination building (`generate_combinations`),
referential validation (`find_missing_parts_in_maps`), protocol assembly
(`create_protocol`), and the two Streamlit workflows (Golden Gate and
Colony PCR) as whole-pipeline functions.

Modelling conventions:
* A pandas cell is a `Cell`: a Python `str` (`Cell.text`), a Python `int`
  (`Cell.intv`), a Python `float` (`Cell.floatv`, modelled as a rational
  number; the examples used below are exactly representable doubles), or
  the missing marker `Cell.na` (covering `NaN`/`pd.NA`).
* A pandas DataFrame is a `Table := List (List Cell)`.  DataFrames read by
  `pd.read_csv` are rectangular; a row shorter than another is padded by
  pandas with `NaN`, which the embedding reproduces by reading a cell at a
  position past the end of a row as `Cell.na` (`List.getD _ Cell.na`).
* Python value equality (`==`, also used by `set` membership) is `pyEq`:
  it identifies `int` and `float` of equal numeric value and is otherwise
  exact per type; `pd.NA` is identified with itself (a `set` deduplicates
  it through identity).
* Python `sorted` raises `TypeError` when it must compare a string with a
  number (or a missing marker with anything).  Any comparison sort over a
  list containing both a string and a number performs at least one such
  cross comparison, so `sorted` over a deduplicated mixed set always
  raises; the embedding returns `none` in exactly that case, and otherwise
  sorts with the order `pyLeb`, which agrees with Python's `<` on every
  comparable (single-class) collection of cells.
* Python whitespace (`str.strip`, the regex class `\s`) is modelled by
  `Char.isWhitespace` (space, tab, CR, LF); the regex classes `[A-Za-z]`
  and `\d` are modelled by `Char.isAlpha` and `Char.isDigit`.
* `json.dumps` (default options: separators `", "` and `": "`,
  `ensure_ascii=True`) is modelled by the `json*` functions below; float
  repr is modelled as a (possibly truncated) decimal expansion of the
  rational value, which agrees with Python on terminating decimals.
-/

/-- A spreadsheet cell after `pd.read_csv`: text, integer, float
(modelled as a rational), or the missing marker (`NaN`/`pd.NA`). -/
inductive Cell where
  | text (s : String)
  | intv (n : Int)
  | floatv (q : ℚ)
  | na
deriving DecidableEq

/-- A row of a DataFrame. -/
abbrev Row := List Cell

/-- A DataFrame, as the list of its rows. -/
abbrev Table := List Row

/-- `pd.notna`: everything except the missing marker. -/
def notna : Cell → Bool
  | Cell.na => false
  | _ => true

/-- Python whitespace as used by `str.strip` and the regex `\s`. -/
def isPySpace (c : Char) : Bool := c.isWhitespace

/-- `str.strip()` on the underlying character list: drop leading
whitespace, then drop trailing whitespace. -/
def stripChars (l : List Char) : List Char :=
  ((l.dropWhile isPySpace).reverse.dropWhile isPySpace).reverse

/-- `str.strip()`. -/
def pyStrip (s : String) : String := String.mk (stripChars s.data)

/-- The regex `^\s*$`: the string is empty or all whitespace. -/
def wsOnly (s : String) : Bool := s.data.all isPySpace

/-- First pass of `sanitize_df`: `applymap(lambda x: x.strip() if
isinstance(x, str) else x)`. -/
def stripCell : Cell → Cell
  | Cell.text s => Cell.text (pyStrip s)
  | c => c

/-- Second pass of `sanitize_df`: `replace(r'^\s*$', pd.NA, regex=True)`,
which affects string cells only. -/
def blankToNA : Cell → Cell
  | Cell.text s => if wsOnly s then Cell.na else Cell.text s
  | c => c

/-- `sanitize_df`: trim whitespace from string cells, then turn empty or
whitespace-only strings into the missing marker. -/
def sanitize_df (df : Table) : Table :=
  (df.map (fun r => r.map stripCell)).map (fun r => r.map blankToNA)

/-- `process_plate_map_df`: keep the rows whose first cell is not
missing, and inside each kept row keep only the non-missing cells.  A
pandas row always has at least one cell; an empty row of the ragged model
reads its first cell as the missing marker and is dropped. -/
def process_plate_map_df (df : Table) : Table :=
  df.foldl
    (fun acc row =>
      if notna (row.headD Cell.na) then acc ++ [row.filter notna] else acc)
    []

/-- `generate_plate_maps`: the two-entry dict of plate maps.  Python
dicts preserve insertion order; the model is an association list. -/
def generate_plate_maps (df1 df2 : Table) : List (String × Table) :=
  [("PlateMap1", process_plate_map_df df1),
   ("PlateMap2", process_plate_map_df df2)]

/-- A combination record `{"name": ..., "parts": [...]}`. -/
structure Combo where
  name : Cell
  parts : List Cell
deriving DecidableEq

/-- `generate_combinations`: one `Combo` per row whose first cell is not
missing; the parts are the remaining non-missing cells of the row. -/
def generate_combinations (df : Table) : List Combo :=
  df.foldl
    (fun acc row =>
      match row with
      | [] => acc
      | c :: rest => if notna c then acc ++ [⟨c, rest.filter notna⟩] else acc)
    []

/-- The regex `[A-Za-z]` applied with `re.search`: some character of the
string is an ASCII letter. -/
def hasAlpha (s : String) : Bool := s.data.any Char.isAlpha

/-- `re.fullmatch(r"\d+(?:\.\d+)?", s)`: one or more digits, optionally
followed by a dot and one or more digits. -/
def isUnsignedNumStr (s : String) : Bool :=
  let ds := s.data.takeWhile Char.isDigit
  let rest := s.data.dropWhile Char.isDigit
  !ds.isEmpty &&
    (rest.isEmpty ||
      (decide (rest.headD ' ' = '.') && !rest.tail.isEmpty &&
        rest.tail.all Char.isDigit))

/-- The inner test of `detect_header_row`: the cell under a candidate
header is an `int`/`float`, or a string whose strip matches
`\d+(?:\.\d+)?`.  (`NaN` is skipped by the `pd.isna` guard.) -/
def looksNumeric : Cell → Bool
  | Cell.intv _ => true
  | Cell.floatv _ => true
  | Cell.text s => isUnsignedNumStr (pyStrip s)
  | Cell.na => false

/-- `detect_header_row`: fewer than two rows is never a header; otherwise
some first-row cell is a string containing an ASCII letter and some
non-missing cell below it in the same column looks numeric. -/
def detect_header_row (df : Table) : Bool :=
  match df with
  | [] => false
  | [_] => false
  | first :: rest =>
    (List.range first.length).any fun j =>
      match first.getD j Cell.na with
      | Cell.text s =>
          hasAlpha s && rest.any (fun row => looksNumeric (row.getD j Cell.na))
      | _ => false

/-- Python `==` between cells, as used by `set` membership in
`find_missing_parts_in_maps`: `int`/`float` compare by numeric value,
strings compare exactly, distinct classes never compare equal, and the
missing marker is identified with itself (set identity). -/
def pyEq : Cell → Cell → Bool
  | Cell.text a, Cell.text b => decide (a = b)
  | Cell.intv a, Cell.intv b => decide (a = b)
  | Cell.intv a, Cell.floatv b => decide ((a : ℚ) = b)
  | Cell.floatv a, Cell.intv b => decide (a = (b : ℚ))
  | Cell.floatv a, Cell.floatv b => decide (a = b)
  | Cell.na, Cell.na => true
  | _, _ => false

/-- Python `in` on a collection of cells. -/
def pyMem (c : Cell) (l : List Cell) : Bool := l.any fun x => pyEq c x

/-- Comparison class of a cell for Python `<`: numbers, strings, and the
missing marker are mutually incomparable. -/
def classRank : Cell → Nat
  | Cell.intv _ => 0
  | Cell.floatv _ => 0
  | Cell.text _ => 1
  | Cell.na => 2

/-- Numeric value of a numeric cell. -/
def numVal : Cell → ℚ
  | Cell.intv n => (n : ℚ)
  | Cell.floatv q => q
  | _ => 0

/-- String value of a text cell. -/
def textVal : Cell → String
  | Cell.text s => s
  | _ => ""

/-- A total order on cells that agrees with Python `<=` on every pair of
comparable cells (numbers by value, strings lexicographically by code
point); the class rank breaks ties between incomparable classes so that
`List.insertionSort` can be applied. -/
def pyLeb (a b : Cell) : Bool :=
  decide (classRank a < classRank b) ||
    (decide (classRank a = classRank b) &&
      (if classRank a = 0 then decide (numVal a ≤ numVal b)
       else decide (textVal a ≤ textVal b)))

/-- Two cells that Python `<` can compare without raising `TypeError`:
both numbers or both strings (the missing marker compares with
nothing, not even itself). -/
def pyCompat (a b : Cell) : Bool :=
  decide (classRank a = classRank b) && decide (classRank a ≠ 2)

/-- All distinct positions of the list hold mutually comparable cells:
precisely the condition under which Python `sorted` cannot raise. -/
def pairwiseCompat : List Cell → Bool
  | [] => true
  | x :: tl => tl.all (fun y => pyCompat x y) && pairwiseCompat tl

/-- The `available` set of `find_missing_parts_in_maps`: every
non-missing cell of every row of every plate map, in scan order (the set
is modelled as a list; membership is `pyMem`). -/
def availableCells (maps : List (String × Table)) : List Cell :=
  maps.foldl
    (fun acc kv =>
      kv.2.foldl
        (fun acc2 row =>
          row.foldl (fun acc3 item => if notna item then acc3 ++ [item] else acc3) acc2)
        acc)
    []

/-- One step of the `missing.add(part)` loop: a part already available,
or already recorded (up to Python equality), is skipped. -/
def addMissing (avail : List Cell) (m : List Cell) (part : Cell) : List Cell :=
  if pyMem part avail || pyMem part m then m else m ++ [part]

/-- The `missing` set of `find_missing_parts_in_maps`, in first-seen
order, deduplicated by Python equality. -/
def missingList (combos : List Combo) (avail : List Cell) : List Cell :=
  combos.foldl (fun m combo => combo.parts.foldl (addMissing avail) m) []

/-- `find_missing_parts_in_maps`: collect the parts of the combinations
that are in no plate map, deduplicate, and return them sorted by Python
`<`.  `none` models the `TypeError` that `sorted` raises when the
collected parts mix strings and numbers (or contain the missing marker
together with anything else). -/
def find_missing_parts_in_maps (combos_list : List Combo)
    (plate_maps_dict : List (String × Table)) : Option (List Cell) :=
  let avail := availableCells plate_maps_dict
  let m := missingList combos_list avail
  if pairwiseCompat m then
    some (List.insertionSort (fun a b => pyLeb a b = true) m)
  else
    none

/-- Hex digit for `\uXXXX` escapes. -/
def hexDigitChar (n : Nat) : Char :=
  if n < 10 then Char.ofNat (48 + n) else Char.ofNat (87 + n)

/-- Four-digit lowercase hex, as produced by `json.dumps`. -/
def hex4 (n : Nat) : String :=
  String.mk [hexDigitChar (n / 4096 % 16), hexDigitChar (n / 256 % 16),
             hexDigitChar (n / 16 % 16), hexDigitChar (n % 16)]

/-- `json.dumps` escaping of one character (default `ensure_ascii=True`;
astral characters become surrogate pairs). -/
def jsonEscapeChar (c : Char) : String :=
  if c = '"' then "\\\""
  else if c = '\\' then "\\\\"
  else if c = '\n' then "\\n"
  else if c = '\t' then "\\t"
  else if c = '\r' then "\\r"
  else if c.toNat = 8 then "\\b"
  else if c.toNat = 12 then "\\f"
  else if c.toNat < 32 then "\\u" ++ hex4 c.toNat
  else if c.toNat < 127 then String.mk [c]
  else if c.toNat < 65536 then "\\u" ++ hex4 c.toNat
  else
    "\\u" ++ hex4 (55296 + (c.toNat - 65536) / 1024) ++
      "\\u" ++ hex4 (56320 + (c.toNat - 65536) % 1024)

/-- `json.dumps` of a string. -/
def jsonString (s : String) : String :=
  "\"" ++ String.join (s.data.map jsonEscapeChar) ++ "\""

/-- Decimal digits of a rational in `[0, 1)`, with fuel; empty once the
remainder reaches zero. -/
def fracDigits : Nat → ℚ → String
  | 0, _ => ""
  | fuel + 1, r =>
    if r = 0 then ""
    else
      String.mk [Char.ofNat (48 + (⌊r * 10⌋).toNat)] ++
        fracDigits fuel (r * 10 - (⌊r * 10⌋ : ℚ))

/-- Python `repr` of a float, modelled on the rational value: sign,
integer part, and decimal expansion (at least one digit, as Python
always prints floats with a decimal point). -/
def floatRepr (q : ℚ) : String :=
  let sign := if q < 0 then "-" else ""
  let a := |q|
  let fs := fracDigits 64 (a - (⌊a⌋ : ℚ))
  sign ++ toString ⌊a⌋ ++ "." ++ (if fs = "" then "0" else fs)

/-- `json.dumps` of one cell (`NaN` is what `json.dumps` emits for a
missing float value). -/
def jsonCell : Cell → String
  | Cell.text s => jsonString s
  | Cell.intv n => toString n
  | Cell.floatv q => floatRepr q
  | Cell.na => "NaN"

/-- `json.dumps` of a list of cells. -/
def jsonCellList (l : List Cell) : String :=
  "[" ++ String.intercalate ", " (l.map jsonCell) ++ "]"

/-- `json.dumps` of a plate map (list of rows). -/
def jsonTable (t : Table) : String :=
  "[" ++ String.intercalate ", " (t.map jsonCellList) ++ "]"

/-- `json.dumps` of the plate-map dict. -/
def jsonPlateMaps (d : List (String × Table)) : String :=
  "\x7b" ++
    String.intercalate ", "
      (d.map fun kv => jsonString kv.1 ++ ": " ++ jsonTable kv.2) ++
  "\x7d"

/-- `json.dumps` of one combination record. -/
def jsonCombo (c : Combo) : String :=
  "\x7b" ++ jsonString "name" ++ ": " ++ jsonCell c.name ++ ", " ++
    jsonString "parts" ++ ": " ++ jsonCellList c.parts ++ "\x7d"

/-- `json.dumps` of the combination list. -/
def jsonCombos (l : List Combo) : String :=
  "[" ++ String.intercalate ", " (l.map jsonCombo) ++ "]"

/-- `create_protocol`: build the two assignment lines (each followed by a
blank line) and prepend them to the decoded template body. -/
def create_protocol (dict_obj : List (String × Table)) (combos_list : List Combo)
    (template_str : String) (dict_name : String) (combos_name : String) : String :=
  let header := dict_name ++ " = " ++ jsonPlateMaps dict_obj ++ "\n\n"
  let header2 := header ++ combos_name ++ " = " ++ jsonCombos combos_list ++ "\n\n"
  header2 ++ template_str

/-- Per-table preparation shared by the workflows: `sanitize_df`, then
`iloc[1:]` when the header flag is set. -/
def prepTable (headerMode : Bool) (df : Table) : Table :=
  let s := sanitize_df df
  if headerMode then s.drop 1 else s

/-- Outcome of one button press, as far as the core pipeline is
concerned: an exception caught by the `except` block (the only uncaught
source inside the modelled region is `sorted`), a missing-parts report
(`st.error` + `st.stop`), the capacity error of the Golden Gate tab, or
a downloadable protocol artifact. -/
inductive RunResult where
  | sortFailure
  | missingParts (l : List Cell)
  | capacityError
  | protocol (s : String)
deriving DecidableEq

/-- Whether a run produced a downloadable protocol artifact. -/
def RunResult.producesArtifact : RunResult → Bool
  | RunResult.protocol _ => true
  | _ => false

/-- The Golden Gate tab pipeline: sanitize the three tables, drop the
first row of each when the header flag is set, build maps and
combinations, validate, enforce the 96-combination cap, and assemble. -/
def goldenGateRun (headerMode : Bool) (dfFix dfCust dfComb : Table)
    (template : String) : RunResult :=
  let d1 := prepTable headerMode dfFix
  let d2 := prepTable headerMode dfCust
  let d3 := prepTable headerMode dfComb
  let dnaDict := generate_plate_maps d1 d2
  let combos := generate_combinations d3
  match find_missing_parts_in_maps combos dnaDict with
  | none => RunResult.sortFailure
  | some [] =>
      if combos.length > 96 then RunResult.capacityError
      else
        RunResult.protocol
          (create_protocol dnaDict combos template
            "dna_plate_map_dict" "combinations_to_make")
  | some l => RunResult.missingParts l

/-- The Colony PCR tab pipeline: the colony and deck tables are only
sanitized (the header flag is applied to the recipe table alone), the
dict is built directly with the two PCR keys, validation runs (the
`in globals()` guard is always true, the function being defined at
module level), and the protocol is assembled with no capacity check. -/
def colonyPcrRun (headerMode : Bool) (dfColony dfDeck dfRecipe : Table)
    (template : String) : RunResult :=
  let dCol := sanitize_df dfColony
  let dDeck := sanitize_df dfDeck
  let dRec := prepTable headerMode dfRecipe
  let pcrDict := [("colony_template_map", process_plate_map_df dCol),
                  ("pcr_deck_map", process_plate_map_df dDeck)]
  let combos := generate_combinations dRec
  match find_missing_parts_in_maps combos pcrDict with
  | none => RunResult.sortFailure
  | some [] =>
      RunResult.protocol
        (create_protocol pcrDict combos template
          "pcr_deck_colony_template_maps_dict" "pcr_recipe_to_make")
  | some l => RunResult.missingParts l

/-- Modelled from the spec (claim C3's reading of the header flag): a
Colony PCR pipeline in which the header flag uniformly drops the first
row of all three supplied tables, the plate-map tables included.  Used
only to compare the claimed behaviour with `colonyPcrRun`. -/
def colonyPcrRunSpec (headerMode : Bool) (dfColony dfDeck dfRecipe : Table)
    (template : String) : RunResult :=
  let dCol := prepTable headerMode dfColony
  let dDeck := prepTable headerMode dfDeck
  let dRec := prepTable headerMode dfRecipe
  let pcrDict := [("colony_template_map", process_plate_map_df dCol),
                  ("pcr_deck_map", process_plate_map_df dDeck)]
  let combos := generate_combinations dRec
  match find_missing_parts_in_maps combos pcrDict with
  | none => RunResult.sortFailure
  | some [] =>
      RunResult.protocol
        (create_protocol pcrDict combos template
          "pcr_deck_colony_template_maps_dict" "pcr_recipe_to_make")
  | some l => RunResult.missingParts l

/-- Spec-side, single-pass description of cell normalization (section
4.1 of the spec): strip textual cells; a cell that strips to the empty
string becomes the marker; every other cell passes through. -/
def sanitizeCellSpec : Cell → Cell
  | Cell.text s => if pyStrip s = "" then Cell.na else Cell.text (pyStrip s)
  | c => c

/-- Spec-side description of the number pattern of the Header Sniffer
(claim C6): digits only, or digits, one dot, digits — no sign, no
exponent. -/
def specNumericText (cs : List Char) : Prop :=
  (cs ≠ [] ∧ ∀ c ∈ cs, c.isDigit = true) ∨
    (∃ a b, cs = a ++ '.' :: b ∧ a ≠ [] ∧ b ≠ [] ∧
      (∀ c ∈ a, c.isDigit = true) ∧ (∀ c ∈ b, c.isDigit = true))

/-- Spec-side description of a cell that qualifies as evidence below a
header candidate: numeric, or text matching the number pattern. -/
def numericLikeP : Cell → Prop
  | Cell.intv _ => True
  | Cell.floatv _ => True
  | Cell.text s => specNumericText s.data
  | Cell.na => False

/-- Spec-side description of a header-like table (claim C6): at least
two rows, and some column whose first cell is text with an ASCII letter
and below which some cell qualifies as numeric evidence. -/
def headerQualifiesP (df : Table) : Prop :=
  ∃ first rest, df = first :: rest ∧ rest ≠ [] ∧
    ∃ j < first.length, ∃ s : String,
      first.getD j Cell.na = Cell.text s ∧
      (∃ ch ∈ s.data, ch.isAlpha = true) ∧
      ∃ row ∈ rest, numericLikeP (List.getD row j Cell.na)

/-! ## Helper lemmas about stripping and normalization -/

/-- The head of a non-trivial `dropWhile` result fails the predicate. -/
theorem dropWhile_head_cons_false {q : Char → Bool} {l t : List Char} {a : Char}
    (h : l.dropWhile q = a :: t) : q a = false := by
  have ha := List.head?_dropWhile_not q l
  rw [h] at ha
  simpa using ha

/-- Dropping a satisfied prefix twice is the same as dropping it once. -/
theorem dropWhile_self_idem (l : List Char) (q : Char → Bool) :
    (l.dropWhile q).dropWhile q = l.dropWhile q := by
  cases h : l.dropWhile q with
  | nil => rfl
  | cons a t =>
    have ha := dropWhile_head_cons_false h
    simp [List.dropWhile_cons, ha]

/-- Dropping a prefix does not change the last element (when something
is left). -/
theorem getLast?_dropWhile {q : Char → Bool} {m : List Char}
    (h : m.dropWhile q ≠ []) : (m.dropWhile q).getLast? = m.getLast? := by
  induction m with
  | nil => simp at h
  | cons a t ih =>
    by_cases ha : q a
    · rw [List.dropWhile_cons_of_pos ha] at h ⊢
      cases t with
      | nil => simp at h
      | cons b t2 => rw [ih h, List.getLast?_cons_cons]
    · rw [List.dropWhile_cons_of_neg ha]

/-- The first character of a stripped list is not whitespace. -/
theorem stripChars_head {l : List Char} {a : Char}
    (h : (stripChars l).head? = some a) : isPySpace a = false := by
  unfold stripChars at h
  rw [List.head?_reverse] at h
  have hne : (((l.dropWhile isPySpace).reverse).dropWhile isPySpace) ≠ [] := by
    intro h0
    rw [h0] at h
    simp at h
  rw [getLast?_dropWhile hne, List.getLast?_reverse] at h
  cases hd : (l.dropWhile isPySpace) with
  | nil => rw [hd] at h; simp at h
  | cons b t =>
    rw [hd] at h
    simp only [List.head?_cons, Option.some.injEq] at h
    subst h
    exact dropWhile_head_cons_false hd

/-- The last character of a stripped list is not whitespace. -/
theorem stripChars_getLast {l : List Char} {a : Char}
    (h : (stripChars l).getLast? = some a) : isPySpace a = false := by
  unfold stripChars at h
  rw [List.getLast?_reverse] at h
  cases hd : ((l.dropWhile isPySpace).reverse.dropWhile isPySpace) with
  | nil => rw [hd] at h; simp at h
  | cons b t =>
    rw [hd] at h
    simp only [List.head?_cons, Option.some.injEq] at h
    subst h
    exact dropWhile_head_cons_false hd

/-- A list whose first and last characters are not whitespace is left
unchanged by stripping. -/
theorem stripChars_of_clean {l : List Char}
    (h1 : ∀ a, l.head? = some a → isPySpace a = false)
    (h2 : ∀ a, l.getLast? = some a → isPySpace a = false) :
    stripChars l = l := by
  have hl : l.dropWhile isPySpace = l := by
    cases l with
    | nil => rfl
    | cons a t => exact List.dropWhile_cons_of_neg (by simp [h1 a rfl])
  unfold stripChars
  rw [hl]
  have hr : l.reverse.dropWhile isPySpace = l.reverse := by
    cases hrev : l.reverse with
    | nil => rfl
    | cons a t =>
      have hla : l.getLast? = some a := by
        rw [← List.head?_reverse, hrev, List.head?_cons]
      exact List.dropWhile_cons_of_neg (by simp [h2 a hla])
  rw [hr, List.reverse_reverse]

/-- Stripping is idempotent on character lists. -/
theorem stripChars_idem (l : List Char) :
    stripChars (stripChars l) = stripChars l :=
  stripChars_of_clean (fun _ h => stripChars_head h) (fun _ h => stripChars_getLast h)

/-- The character data of `String.mk` is the given list. -/
theorem data_mk (l : List Char) : (String.mk l).data = l := rfl

/-- Python strip is idempotent. -/
theorem pyStrip_idem (s : String) : pyStrip (pyStrip s) = pyStrip s := by
  unfold pyStrip
  rw [data_mk, stripChars_idem]

/-- A stripped string that is all whitespace is empty. -/
theorem wsOnly_pyStrip_iff (s : String) : wsOnly (pyStrip s) = true ↔ pyStrip s = "" := by
  constructor
  · intro h
    cases hd : stripChars s.data with
    | nil =>
      show String.mk (stripChars s.data) = ""
      rw [hd]
    | cons a t =>
      exfalso
      have ha : isPySpace a = false := @stripChars_head s.data a (by rw [hd]; rfl)
      have hall : (stripChars s.data).all isPySpace = true := h
      rw [hd] at hall
      simp only [List.all_cons, Bool.and_eq_true] at hall
      rw [hall.1] at ha
      simp at ha
  · intro h
    rw [h]
    rfl

/-- The two passes of `sanitize_df` on one cell agree with the spec's
single-pass description. -/
theorem blankToNA_stripCell (c : Cell) :
    blankToNA (stripCell c) = sanitizeCellSpec c := by
  cases c with
  | text s =>
    show (if wsOnly (pyStrip s) then Cell.na else Cell.text (pyStrip s)) =
      (if pyStrip s = "" then Cell.na else Cell.text (pyStrip s))
    by_cases h : pyStrip s = ""
    · rw [if_pos h, if_pos ((wsOnly_pyStrip_iff s).mpr h)]
    · rw [if_neg h, if_neg (by intro hw; exact h ((wsOnly_pyStrip_iff s).mp hw))]
  | intv n => rfl
  | floatv q => rfl
  | na => rfl

/-- `sanitize_df` equals the spec's single cell-wise pass. -/
theorem sanitize_df_eq_spec (df : Table) :
    sanitize_df df = df.map fun r => r.map sanitizeCellSpec := by
  unfold sanitize_df
  rw [List.map_map]
  apply List.map_congr_left
  intro r _
  show (r.map stripCell).map blankToNA = r.map sanitizeCellSpec
  rw [List.map_map]
  apply List.map_congr_left
  intro c _
  exact blankToNA_stripCell c

/-- The spec's single-pass normalization is idempotent on one cell. -/
theorem sanitizeCellSpec_idem (c : Cell) :
    sanitizeCellSpec (sanitizeCellSpec c) = sanitizeCellSpec c := by
  cases c with
  | text s =>
    by_cases h : pyStrip s = ""
    · simp [sanitizeCellSpec, h]
    · simp [sanitizeCellSpec, h, pyStrip_idem]
  | intv n => rfl
  | floatv q => rfl
  | na => rfl

/-- Normalization of a whole table is idempotent (helper shared by the
idempotence claim and the header-flag claim). -/
theorem sanitize_df_idem (df : Table) :
    sanitize_df (sanitize_df df) = sanitize_df df := by
  rw [sanitize_df_eq_spec (sanitize_df df), sanitize_df_eq_spec df]
  rw [List.map_map]
  apply List.map_congr_left
  intro r _
  show (r.map sanitizeCellSpec).map sanitizeCellSpec = r.map sanitizeCellSpec
  rw [List.map_map]
  apply List.map_congr_left
  intro c _
  exact sanitizeCellSpec_idem c

/-! ## Helper lemmas about the plate-map builder -/

/-- The accumulator form of the plate-map fold. -/
theorem process_fold_acc (df : Table) (acc : Table) :
    df.foldl
      (fun acc row =>
        if notna (row.headD Cell.na) then acc ++ [row.filter notna] else acc)
      acc =
    acc ++ (df.filter fun r => notna (r.headD Cell.na)).map (fun r => r.filter notna) := by
  induction df generalizing acc with
  | nil => simp
  | cons r t ih =>
    rw [List.foldl_cons, List.filter_cons]
    by_cases h : notna (r.headD Cell.na)
    · rw [if_pos h, if_pos h, List.map_cons, ih]
      simp [List.append_assoc]
    · rw [if_neg h, if_neg h, ih]

/-- The plate-map builder as filter plus per-row cleanup. -/
theorem process_eq_filter_map (df : Table) :
    process_plate_map_df df =
      (df.filter fun r => notna (r.headD Cell.na)).map (fun r => r.filter notna) := by
  have h := process_fold_acc df []
  simpa [process_plate_map_df] using h

/-! ## Helper lemmas about Python equality of cells -/

/-- Injection of a cell into the value space that Python equality
compares: numbers by rational value, strings, and the marker. -/
def pyKey : Cell → ℚ ⊕ (String ⊕ Unit)
  | Cell.intv n => Sum.inl (n : ℚ)
  | Cell.floatv q => Sum.inl q
  | Cell.text s => Sum.inr (Sum.inl s)
  | Cell.na => Sum.inr (Sum.inr ())

/-- Python equality is equality of keys. -/
theorem pyEq_eq_key (a b : Cell) : pyEq a b = decide (pyKey a = pyKey b) := by
  cases a <;> cases b <;> simp [pyEq, pyKey]

/-- Python equality as a proposition. -/
theorem pyEq_iff_key {a b : Cell} : pyEq a b = true ↔ pyKey a = pyKey b := by
  rw [pyEq_eq_key]
  simp

/-- Python equality is reflexive. -/
theorem pyEq_refl (a : Cell) : pyEq a a = true := by
  rw [pyEq_iff_key]

/-- Python equality is symmetric. -/
theorem pyEq_symm {a b : Cell} (h : pyEq a b = true) : pyEq b a = true := by
  rw [pyEq_iff_key] at h ⊢
  exact h.symm

/-- Python equality is transitive. -/
theorem pyEq_trans {a b c : Cell} (h1 : pyEq a b = true) (h2 : pyEq b c = true) :
    pyEq a c = true := by
  rw [pyEq_iff_key] at h1 h2 ⊢
  exact h1.trans h2

/-- Equal cells are members of the same collections. -/
theorem pyMem_congr {a b : Cell} (h : pyEq a b = true) (l : List Cell) :
    pyMem a l = pyMem b l := by
  unfold pyMem
  have hf : (fun x => pyEq a x) = (fun x => pyEq b x) := by
    funext x
    rw [pyEq_eq_key, pyEq_eq_key, pyEq_iff_key.mp h]
  rw [hf]

/-- Membership over an appended element. -/
theorem pyMem_append_single (c : Cell) (m : List Cell) (p : Cell) :
    pyMem c (m ++ [p]) = (pyMem c m || pyEq c p) := by
  simp [pyMem]

/-! ## Helper lemmas about the missing-set computation -/

/-- Membership after one `missing.add` step. -/
theorem pyMem_addMissing (avail m : List Cell) (p c : Cell) :
    pyMem c (addMissing avail m p) =
      (pyMem c m || (pyEq c p && !pyMem c avail)) := by
  unfold addMissing
  by_cases hp : pyEq c p = true
  · have hav : pyMem c avail = pyMem p avail := pyMem_congr hp avail
    have hm : pyMem c m = pyMem p m := pyMem_congr hp m
    cases hpa : pyMem p avail <;> cases hpm : pyMem p m <;>
      simp [hpa, hpm, hav, hm, hp, pyMem_append_single]
  · simp only [Bool.not_eq_true] at hp
    cases hpa : pyMem p avail <;> cases hpm : pyMem p m <;>
      simp [hpa, hpm, hp, pyMem_append_single]

/-- Membership in the folded missing set over one parts list. -/
theorem pyMem_missing_fold (avail ps m : List Cell) (c : Cell) :
    pyMem c (ps.foldl (addMissing avail) m) =
      (pyMem c m || (pyMem c ps && !pyMem c avail)) := by
  induction ps generalizing m with
  | nil => simp [pyMem]
  | cons p t ih =>
    rw [List.foldl_cons, ih, pyMem_addMissing]
    have hcons : pyMem c (p :: t) = (pyEq c p || pyMem c t) := by simp [pyMem]
    rw [hcons]
    cases h1 : pyEq c p <;> cases h2 : pyMem c t <;> cases h3 : pyMem c avail <;>
      simp [h1, h2, h3]

/-- Every element of the folded missing set comes from the accumulator
or from the parts list, and in the latter case it is unavailable. -/
theorem mem_missing_fold {avail ps m : List Cell} {c : Cell}
    (h : c ∈ ps.foldl (addMissing avail) m) :
    c ∈ m ∨ (c ∈ ps ∧ pyMem c avail = false) := by
  induction ps generalizing m with
  | nil => exact Or.inl h
  | cons p t ih =>
    rw [List.foldl_cons] at h
    rcases ih h with h1 | h1
    · unfold addMissing at h1
      by_cases hc : (pyMem p avail || pyMem p m) = true
      · rw [if_pos hc] at h1
        exact Or.inl h1
      · rw [if_neg hc] at h1
        rcases List.mem_append.mp h1 with h2 | h2
        · exact Or.inl h2
        · have hcp : c = p := by simpa using h2
          subst hcp
          simp only [Bool.or_eq_true, not_or, Bool.not_eq_true] at hc
          exact Or.inr ⟨List.mem_cons_self _ _, hc.1⟩
    · exact Or.inr ⟨List.mem_cons_of_mem _ h1.1, h1.2⟩

/-- The folded missing set stays free of Python-equal duplicates. -/
theorem nodup_missing_fold (avail ps m : List Cell)
    (hm : m.Pairwise fun a b => pyEq a b = false) :
    (ps.foldl (addMissing avail) m).Pairwise fun a b => pyEq a b = false := by
  induction ps generalizing m with
  | nil => exact hm
  | cons p t ih =>
    rw [List.foldl_cons]
    apply ih
    unfold addMissing
    by_cases hc : (pyMem p avail || pyMem p m) = true
    · rw [if_pos hc]; exact hm
    · rw [if_neg hc]
      simp only [Bool.or_eq_true, not_or, Bool.not_eq_true] at hc
      rw [List.pairwise_append]
      refine ⟨hm, List.pairwise_singleton _ _, ?_⟩
      intro a ha b hb
      have hbp : b = p := by simpa using hb
      subst hbp
      by_contra hcon
      rw [Bool.not_eq_false] at hcon
      have hpa : pyEq b a = true := pyEq_symm hcon
      have hmem : pyMem b m = true := by
        unfold pyMem
        rw [List.any_eq_true]
        exact ⟨a, ha, hpa⟩
      rw [hc.2] at hmem
      simp at hmem

/-- Membership in the missing set: a cell is recorded as missing exactly
when some combination references it (up to Python equality) and no plate
map provides it. -/
theorem pyMem_missingList (combos : List Combo) (avail : List Cell) (c : Cell) :
    pyMem c (missingList combos avail) =
      (combos.any (fun cb => pyMem c cb.parts) && !pyMem c avail) := by
  unfold missingList
  suffices h : ∀ m, pyMem c
      (combos.foldl (fun m combo => combo.parts.foldl (addMissing avail) m) m) =
      (pyMem c m || (combos.any (fun cb => pyMem c cb.parts) && !pyMem c avail)) by
    rw [h []]
    simp [pyMem]
  intro m
  induction combos generalizing m with
  | nil => simp
  | cons cb t ih =>
    rw [List.foldl_cons, ih, pyMem_missing_fold]
    cases h1 : pyMem c cb.parts <;> cases h2 : t.any (fun x => pyMem c x.parts) <;>
      cases h3 : pyMem c avail <;> simp [h1, h2, h3]

/-- Every element of the missing set is literally a part of some
combination and is unavailable. -/
theorem mem_missingList {combos : List Combo} {avail : List Cell} {c : Cell}
    (h : c ∈ missingList combos avail) :
    (∃ cb ∈ combos, c ∈ cb.parts) ∧ pyMem c avail = false := by
  unfold missingList at h
  suffices hs : ∀ m, c ∈
      (combos.foldl (fun m combo => combo.parts.foldl (addMissing avail) m) m) →
      c ∈ m ∨ ((∃ cb ∈ combos, c ∈ cb.parts) ∧ pyMem c avail = false) by
    rcases hs [] h with h1 | h1
    · simp at h1
    · exact h1
  clear h
  induction combos with
  | nil =>
    intro m hm
    exact Or.inl hm
  | cons cb t ih =>
    intro m hm
    rw [List.foldl_cons] at hm
    rcases ih _ hm with h1 | h1
    · rcases mem_missing_fold h1 with h2 | h2
      · exact Or.inl h2
      · exact Or.inr ⟨⟨cb, List.mem_cons_self _ _, h2.1⟩, h2.2⟩
    · rcases h1 with ⟨⟨cb2, hcb2, hc2⟩, hav⟩
      exact Or.inr ⟨⟨cb2, List.mem_cons_of_mem _ hcb2, hc2⟩, hav⟩

/-- The missing set has no Python-equal duplicates. -/
theorem nodup_missingList (combos : List Combo) (avail : List Cell) :
    (missingList combos avail).Pairwise fun a b => pyEq a b = false := by
  unfold missingList
  suffices hs : ∀ m : List Cell, (m.Pairwise fun a b => pyEq a b = false) →
      ((combos.foldl (fun m combo => combo.parts.foldl (addMissing avail) m) m).Pairwise
        fun a b => pyEq a b = false) by
    exact hs [] List.Pairwise.nil
  induction combos with
  | nil =>
    intro m hm
    exact hm
  | cons cb t ih =>
    intro m hm
    rw [List.foldl_cons]
    exact ih _ (nodup_missing_fold avail cb.parts m hm)

/-! ## Helper lemmas about the sort order -/

/-- The sort order is total. -/
theorem pyLeb_total (a b : Cell) : pyLeb a b = true ∨ pyLeb b a = true := by
  cases a <;> cases b <;>
    simp [pyLeb, classRank, numVal, textVal] <;>
    exact le_total _ _

/-- The sort order is transitive. -/
theorem pyLeb_trans {a b c : Cell} (h1 : pyLeb a b = true) (h2 : pyLeb b c = true) :
    pyLeb a c = true := by
  cases a <;> cases b <;> cases c <;>
    simp [pyLeb, classRank, numVal, textVal] at h1 h2 ⊢ <;>
    first
    | exact le_trans h1 h2
    | exact le_trans (by exact_mod_cast h1) h2
    | exact le_trans h1 (by exact_mod_cast h2)
    | exact_mod_cast le_trans h1 h2

instance : IsTotal Cell (fun a b => pyLeb a b = true) := ⟨pyLeb_total⟩

instance : IsTrans Cell (fun a b => pyLeb a b = true) :=
  ⟨fun _ _ _ h1 h2 => pyLeb_trans h1 h2⟩

/-- Membership tests are invariant under permutation. -/
theorem pyMem_of_perm {l1 l2 : List Cell} (h : l1.Perm l2) (c : Cell) :
    pyMem c l1 = pyMem c l2 := by
  cases h2 : pyMem c l2 with
  | true =>
    rw [pyMem, List.any_eq_true] at h2 ⊢
    rcases h2 with ⟨x, hx, hpx⟩
    exact ⟨x, h.mem_iff.mpr hx, hpx⟩
  | false =>
    rw [pyMem] at h2 ⊢
    rw [Bool.eq_false_iff] at h2 ⊢
    intro hcon
    apply h2
    rw [List.any_eq_true] at hcon ⊢
    rcases hcon with ⟨x, hx, hpx⟩
    exact ⟨x, h.mem_iff.mp hx, hpx⟩

/-- Reading an index of a mapped list, with the default carried through
the map. -/
theorem getD_map_default {α β : Type _} (f : α → β) (l : List α) (n : Nat) (d : α) :
    (l.map f).getD n (f d) = f (l.getD n d) := by
  induction l generalizing n with
  | nil => simp
  | cons a t ih =>
    cases n with
    | zero => simp
    | succ k => exact ih k

/-! ## Claim theorems -/

/-- Claim C7: cell normalization is idempotent: for every raw table,
applying the Cell Normalizer (`sanitize_df`) to its own output yields a
table identical to that output. -/
theorem claim_C7_sanitize_idempotent (df : Table) :
    sanitize_df (sanitize_df df) = sanitize_df df :=
  sanitize_df_idem df

/-- Claim C8: for every raw table, `sanitize_df` returns a table of
identical dimensions (same row count, same length of every row) in which
every textual cell is stripped of leading and trailing whitespace and
becomes the empty marker when nothing but whitespace remains, while
every non-textual cell passes through unchanged (the last four conjuncts
pin down the cell-wise behaviour of the spec-side description that the
third conjunct equates with the implementation). -/
theorem claim_C8_sanitize_contract (df : Table) :
    (sanitize_df df).length = df.length ∧
    (∀ i : Nat, ((sanitize_df df).getD i []).length = (df.getD i []).length) ∧
    (∀ i j : Nat,
      ((sanitize_df df).getD i []).getD j Cell.na =
        sanitizeCellSpec ((df.getD i []).getD j Cell.na)) ∧
    (∀ s : String, sanitizeCellSpec (Cell.text s) =
      if pyStrip s = "" then Cell.na else Cell.text (pyStrip s)) ∧
    (∀ n : Int, sanitizeCellSpec (Cell.intv n) = Cell.intv n) ∧
    (∀ q : ℚ, sanitizeCellSpec (Cell.floatv q) = Cell.floatv q) ∧
    sanitizeCellSpec Cell.na = Cell.na := by
  rw [sanitize_df_eq_spec]
  refine ⟨List.length_map _ _, ?_, ?_, fun s => rfl, fun n => rfl, fun q => rfl, rfl⟩
  · intro i
    have h : (List.map (fun r : Row => r.map sanitizeCellSpec) df).getD i [] =
        (df.getD i []).map sanitizeCellSpec :=
      getD_map_default (fun r : Row => r.map sanitizeCellSpec) df i []
    rw [h]
    exact List.length_map _ _
  · intro i j
    have h1 : (List.map (fun r : Row => r.map sanitizeCellSpec) df).getD i [] =
        (df.getD i []).map sanitizeCellSpec :=
      getD_map_default (fun r : Row => r.map sanitizeCellSpec) df i []
    rw [h1]
    have h2 : ((df.getD i []).map sanitizeCellSpec).getD j Cell.na =
        sanitizeCellSpec ((df.getD i []).getD j Cell.na) :=
      getD_map_default sanitizeCellSpec (df.getD i []) j Cell.na
    rw [h2]

/-- Claim C5: the Plate Map Builder drops exactly the rows whose first
cell is the empty marker, keeps for each surviving row its non-empty
cells in order, and therefore produces no empty row and no empty cell. -/
theorem claim_C5_plate_map_builder (df : Table) :
    process_plate_map_df df =
      (df.filter fun r => notna (r.headD Cell.na)).map (fun r => r.filter notna) ∧
    (process_plate_map_df df).length =
      (df.filter fun r => notna (r.headD Cell.na)).length ∧
    (∀ r ∈ process_plate_map_df df, r ≠ [] ∧ ∀ c ∈ r, notna c = true) := by
  refine ⟨process_eq_filter_map df, ?_, ?_⟩
  · rw [process_eq_filter_map, List.length_map]
  · intro r hr
    rw [process_eq_filter_map] at hr
    rcases List.mem_map.mp hr with ⟨r0, hr0, hfr⟩
    have hkeep : notna (r0.headD Cell.na) = true := by
      have hh := List.of_mem_filter hr0
      simpa using hh
    constructor
    · cases r0 with
      | nil =>
        exfalso
        simp [notna] at hkeep
      | cons c rest =>
        have hc : notna c = true := by simpa using hkeep
        rw [← hfr]
        simp [List.filter_cons, hc]
    · intro c hc
      rw [← hfr] at hc
      exact List.of_mem_filter hc

/-- Claim C9: `generate_plate_maps` always returns the two-key mapping
with keys exactly "PlateMap1" and "PlateMap2", bound to the plate maps
built from the first and second table respectively. -/
theorem claim_C9_generate_plate_maps (df1 df2 : Table) :
    (generate_plate_maps df1 df2).map Prod.fst = ["PlateMap1", "PlateMap2"] ∧
    (generate_plate_maps df1 df2).lookup "PlateMap1" = some (process_plate_map_df df1) ∧
    (generate_plate_maps df1 df2).lookup "PlateMap2" = some (process_plate_map_df df2) := by
  refine ⟨rfl, ?_, ?_⟩ <;> simp [generate_plate_maps, List.lookup]

/-- Claim C4: the Protocol Assembler emits exactly the dict assignment,
a blank line, the combinations assignment, a blank line, and then the
template body unchanged; equivalently the output is a template-independent
header with the template appended byte-for-byte. -/
theorem claim_C4_create_protocol (d : List (String × Table)) (c : List Combo)
    (tpl dn cn : String) :
    create_protocol d c tpl dn cn =
      dn ++ " = " ++ jsonPlateMaps d ++ "\n\n" ++ cn ++ " = " ++ jsonCombos c ++
        "\n\n" ++ tpl ∧
    create_protocol d c tpl dn cn = create_protocol d c "" dn cn ++ tpl := by
  constructor
  · rfl
  · show _ = _
    simp only [create_protocol, String.append_empty]

set_option maxRecDepth 10000

/-- Claim C2, amended: in the Golden Gate workflow a combination count
above 96 yields the distinct capacity error (and no artifact), and a
non-empty missing-parts report takes precedence over the capacity check;
the Colony PCR workflow (see the counterexample) performs no capacity
check at all. -/
theorem claim_C2_capacity_golden_gate :
    (∀ (header : Bool) (df1 df2 df3 : Table) (tpl : String),
      find_missing_parts_in_maps (generate_combinations (prepTable header df3))
          (generate_plate_maps (prepTable header df1) (prepTable header df2)) =
        some [] →
      96 < (generate_combinations (prepTable header df3)).length →
      goldenGateRun header df1 df2 df3 tpl = RunResult.capacityError) ∧
    (∀ (header : Bool) (df1 df2 df3 : Table) (tpl : String) (l : List Cell),
      find_missing_parts_in_maps (generate_combinations (prepTable header df3))
          (generate_plate_maps (prepTable header df1) (prepTable header df2)) =
        some (l : List Cell) →
      l ≠ [] →
      goldenGateRun header df1 df2 df3 tpl = RunResult.missingParts l) := by
  constructor
  · intro header df1 df2 df3 tpl hok hcap
    simp only [goldenGateRun]
    rw [hok]
    simp only [if_pos hcap]
  · intro header df1 df2 df3 tpl l hfind hne
    simp only [goldenGateRun]
    rw [hfind]
    cases l with
    | nil => exact absurd rfl hne
    | cons x xs => rfl

/-- Witness for claim C2's amended theorem at a concrete input: a Golden
Gate run with 97 valid combinations stops with the capacity error. -/
theorem claim_C2_witness :
    goldenGateRun false [] [] (List.replicate 97 [Cell.text "c"]) "T" =
      RunResult.capacityError :=
  claim_C2_capacity_golden_gate.1 false [] [] (List.replicate 97 [Cell.text "c"]) "T"
    (by decide) (by decide)

/-- Counterexample to claim C2 as stated: in the Colony PCR workflow a
run with 97 combinations still produces a protocol artifact, so the
96-combination cap is not enforced in every pipeline run. -/
theorem claim_C2_counterexample :
    96 < (generate_combinations
      (prepTable false (List.replicate 97 [Cell.text "c"]))).length ∧
    (colonyPcrRun false [] [] (List.replicate 97 [Cell.text "c"]) "T").producesArtifact =
      true := by
  constructor
  · decide
  · decide

/-- Claim C3, amended: the header flag drops the first normalized row of
all three tables in the Golden Gate workflow, but in the Colony PCR
workflow it drops only the recipe table's first row — the colony and
deck plate-map tables are used in full (see the counterexample). -/
theorem claim_C3_header_flag :
    (∀ (df1 df2 df3 : Table) (tpl : String),
      goldenGateRun true df1 df2 df3 tpl =
        goldenGateRun false ((sanitize_df df1).drop 1) ((sanitize_df df2).drop 1)
          ((sanitize_df df3).drop 1) tpl) ∧
    (∀ (dfc dfd dfr : Table) (tpl : String),
      colonyPcrRun true dfc dfd dfr tpl =
        colonyPcrRun false dfc dfd ((sanitize_df dfr).drop 1) tpl) := by
  have hprep : ∀ df : Table,
      prepTable false ((sanitize_df df).drop 1) = prepTable true df := by
    intro df
    show sanitize_df ((sanitize_df df).drop 1) = (sanitize_df df).drop 1
    have hdrop : sanitize_df ((sanitize_df df).drop 1) =
        (sanitize_df (sanitize_df df)).drop 1 := by
      unfold sanitize_df
      simp [List.map_drop]
    rw [hdrop, sanitize_df_idem]
  constructor
  · intro df1 df2 df3 tpl
    unfold goldenGateRun
    rw [hprep df1, hprep df2, hprep df3]
  · intro dfc dfd dfr tpl
    unfold colonyPcrRun
    rw [hprep dfr]

/-- Counterexample to claim C3 as stated: with the header flag set, the
Colony PCR workflow keeps the first row of the colony plate-map table
(the run finds part "P" in that first row and emits an artifact),
whereas the claimed uniform behaviour — modelled by `colonyPcrRunSpec`,
which drops the first row of every table — would report "P" missing. -/
theorem claim_C3_counterexample :
    colonyPcrRun true [[Cell.text "P"], [Cell.text "A"]] []
        [[Cell.text "h"], [Cell.text "r", Cell.text "P"]] "T" ≠
      colonyPcrRunSpec true [[Cell.text "P"], [Cell.text "A"]] []
        [[Cell.text "h"], [Cell.text "r", Cell.text "P"]] "T" ∧
    colonyPcrRunSpec true [[Cell.text "P"], [Cell.text "A"]] []
        [[Cell.text "h"], [Cell.text "r", Cell.text "P"]] "T" =
      RunResult.missingParts [Cell.text "P"] ∧
    (colonyPcrRun true [[Cell.text "P"], [Cell.text "A"]] []
        [[Cell.text "h"], [Cell.text "r", Cell.text "P"]] "T").producesArtifact = true := by
  refine ⟨?_, ?_, ?_⟩
  · decide
  · decide
  · decide

/-- A part that is available (in the Python-equality sense) is never in
a successfully returned missing list. -/
theorem available_not_missing (maps : List (String × Table)) (combos : List Combo)
    (c : Cell) (L : List Cell)
    (hav : pyMem c (availableCells maps) = true)
    (hfind : find_missing_parts_in_maps combos maps = some L) :
    pyMem c L = false := by
  simp only [find_missing_parts_in_maps] at hfind
  by_cases hpc : pairwiseCompat (missingList combos (availableCells maps)) = true
  · rw [if_pos hpc] at hfind
    injection hfind with hL
    rw [← hL]
    rw [pyMem_of_perm (List.perm_insertionSort _ _) c]
    rw [pyMem_missingList]
    simp [hav]
  · rw [if_neg hpc] at hfind
    cases hfind

/-- Claim C10: the Referential Validator matches parts to cells by
numeric value across the integer and float types: an integer part whose
value equals a float cell in some plate map (and vice versa) is never
reported missing. -/
theorem claim_C10_cross_type_equality :
    (∀ (maps : List (String × Table)) (combos : List Combo) (n : Int) (q : ℚ)
        (L : List Cell),
      (n : ℚ) = q →
      Cell.floatv q ∈ availableCells maps →
      find_missing_parts_in_maps combos maps = some L →
      pyMem (Cell.intv n) L = false) ∧
    (∀ (maps : List (String × Table)) (combos : List Combo) (n : Int) (q : ℚ)
        (L : List Cell),
      (n : ℚ) = q →
      Cell.intv n ∈ availableCells maps →
      find_missing_parts_in_maps combos maps = some L →
      pyMem (Cell.floatv q) L = false) := by
  constructor
  · intro maps combos n q L hq hmem hfind
    apply available_not_missing maps combos _ _ _ hfind
    rw [pyMem, List.any_eq_true]
    exact ⟨Cell.floatv q, hmem, by simp [pyEq, hq]⟩
  · intro maps combos n q L hq hmem hfind
    apply available_not_missing maps combos _ _ _ hfind
    rw [pyMem, List.any_eq_true]
    exact ⟨Cell.intv n, hmem, by simp [pyEq, hq]⟩

/-- Witness for claim C10 at a concrete input: the integer part 1 is
found in a plate map holding the float 1.0, the validator returns an
empty report, and 1 is indeed not in it. -/
theorem claim_C10_witness :
    ((1 : Int) : ℚ) = 1 ∧
    Cell.floatv 1 ∈ availableCells [("M", [[Cell.floatv 1]])] ∧
    find_missing_parts_in_maps [⟨Cell.text "c", [Cell.intv 1]⟩]
      [("M", [[Cell.floatv 1]])] = some [] ∧
    pyMem (Cell.intv 1) [] = false :=
  ⟨by decide, by decide, by decide,
    claim_C10_cross_type_equality.1 [("M", [[Cell.floatv 1]])]
      [⟨Cell.text "c", [Cell.intv 1]⟩] 1 1 [] (by decide) (by decide) (by decide)⟩

/-- Inequality under Python equality is a symmetric relation. -/
theorem pyEq_false_symm : Symmetric (fun a b : Cell => pyEq a b = false) := by
  intro a b hab
  rw [pyEq_eq_key] at hab ⊢
  simp only [decide_eq_false_iff_not] at hab ⊢
  exact fun hc => hab hc.symm

/-- Claim C1, amended: whenever the collected missing parts are mutually
comparable (all text or all numeric — otherwise Python `sorted` raises,
see the counterexample), the validator returns exactly the sorted,
duplicate-free list of the part values that occur in some combination
and equal no plate-map cell; it runs to completion, so every such part
is represented. -/
theorem claim_C1_validator_complete (combos : List Combo) (maps : List (String × Table))
    (h : pairwiseCompat (missingList combos (availableCells maps)) = true) :
    ∃ L, find_missing_parts_in_maps combos maps = some L ∧
      List.Sorted (fun a b => pyLeb a b = true) L ∧
      List.Pairwise (fun a b => pyEq a b = false) L ∧
      (∀ c ∈ L, (∃ cb ∈ combos, c ∈ cb.parts) ∧
        pyMem c (availableCells maps) = false) ∧
      (∀ c : Cell, (∃ cb ∈ combos, c ∈ cb.parts) →
        pyMem c (availableCells maps) = false → pyMem c L = true) := by
  refine ⟨List.insertionSort (fun a b => pyLeb a b = true)
      (missingList combos (availableCells maps)), ?_, ?_, ?_, ?_, ?_⟩
  · simp only [find_missing_parts_in_maps]
    rw [if_pos h]
  · exact List.sorted_insertionSort _ _
  · exact ((List.perm_insertionSort _ _).pairwise_iff
      (fun {x y} hxy => pyEq_false_symm hxy)).mpr
      (nodup_missingList combos (availableCells maps))
  · intro c hc
    have hm : c ∈ missingList combos (availableCells maps) :=
      (List.mem_insertionSort _).mp hc
    exact mem_missingList hm
  · intro c hcb hav
    rw [pyMem_of_perm (List.perm_insertionSort _ _) c, pyMem_missingList]
    rcases hcb with ⟨cb, hcbmem, hpart⟩
    have hany : combos.any (fun cb => pyMem c cb.parts) = true := by
      rw [List.any_eq_true]
      refine ⟨cb, hcbmem, ?_⟩
      rw [pyMem, List.any_eq_true]
      exact ⟨c, hpart, pyEq_refl c⟩
    rw [hany, hav]
    rfl

/-- Witness for claim C1's amended theorem at a concrete input: one
combination referencing "Z" against plate maps holding only "A". -/
theorem claim_C1_witness :
    pairwiseCompat (missingList [⟨Cell.text "c", [Cell.text "Z"]⟩]
      (availableCells (generate_plate_maps [[Cell.text "A"]] []))) = true ∧
    ∃ L, find_missing_parts_in_maps [⟨Cell.text "c", [Cell.text "Z"]⟩]
        (generate_plate_maps [[Cell.text "A"]] []) = some L ∧
      List.Sorted (fun a b => pyLeb a b = true) L ∧
      List.Pairwise (fun a b => pyEq a b = false) L ∧
      (∀ c ∈ L, (∃ cb ∈ [⟨Cell.text "c", [Cell.text "Z"]⟩], c ∈ Combo.parts cb) ∧
        pyMem c (availableCells (generate_plate_maps [[Cell.text "A"]] [])) = false) ∧
      (∀ c : Cell, (∃ cb ∈ [⟨Cell.text "c", [Cell.text "Z"]⟩], c ∈ Combo.parts cb) →
        pyMem c (availableCells (generate_plate_maps [[Cell.text "A"]] [])) = false →
        pyMem c L = true) :=
  ⟨by decide, claim_C1_validator_complete [⟨Cell.text "c", [Cell.text "Z"]⟩]
    (generate_plate_maps [[Cell.text "A"]] []) (by decide)⟩

/-- Counterexample to claim C1 as stated: when the missing parts mix a
string and a number ("Z" and the integer 1 here, both absent from the
empty plate maps), Python `sorted` raises a `TypeError` instead of
returning the sorted sequence; the model returns `none`. -/
theorem claim_C1_counterexample :
    find_missing_parts_in_maps [⟨Cell.text "c", [Cell.text "Z", Cell.intv 1]⟩]
      (generate_plate_maps [] []) = none ∧
    missingList [⟨Cell.text "c", [Cell.text "Z", Cell.intv 1]⟩]
      (availableCells (generate_plate_maps [] [])) = [Cell.text "Z", Cell.intv 1] := by
  constructor
  · decide
  · decide

/-- Splitting an all-digit list with take/drop. -/
theorem takeWhile_all_digits {l : List Char} (h : ∀ c ∈ l, c.isDigit = true) :
    l.takeWhile Char.isDigit = l ∧ l.dropWhile Char.isDigit = [] := by
  induction l with
  | nil => exact ⟨rfl, rfl⟩
  | cons a t ih =>
    have ha : a.isDigit = true := h a (List.mem_cons_self _ _)
    have ht := ih fun c hc => h c (List.mem_cons_of_mem _ hc)
    rw [List.takeWhile_cons, List.dropWhile_cons]
    simp [ha, ht.1, ht.2]

/-- Splitting a digit block followed by a non-digit with take/drop. -/
theorem takeWhile_digits_stop (a r : List Char) (x : Char)
    (hx : x.isDigit = false) (ha : ∀ c ∈ a, c.isDigit = true) :
    (a ++ x :: r).takeWhile Char.isDigit = a ∧
    (a ++ x :: r).dropWhile Char.isDigit = x :: r := by
  induction a with
  | nil => simp [List.takeWhile_cons, List.dropWhile_cons, hx]
  | cons c t ih =>
    have hc : c.isDigit = true := ha c (List.mem_cons_self _ _)
    have ht := ih fun d hd => ha d (List.mem_cons_of_mem _ hd)
    simp only [List.cons_append, List.takeWhile_cons, List.dropWhile_cons, hc,
      if_true, ht.1, ht.2]
    simp

/-- The regex model agrees with the spec's wording of the number
pattern: digits only, or digits, one dot, digits. -/
theorem isUnsignedNumStr_iff (s : String) :
    isUnsignedNumStr s = true ↔ specNumericText s.data := by
  constructor
  · intro h
    unfold isUnsignedNumStr at h
    simp only [Bool.and_eq_true, Bool.or_eq_true] at h
    rcases h with ⟨hne, hrest⟩
    have hsplit := List.takeWhile_append_dropWhile Char.isDigit s.data
    have htdig : ∀ c ∈ s.data.takeWhile Char.isDigit, c.isDigit = true :=
      fun c hc => List.mem_takeWhile_imp hc
    have hnnil : s.data.takeWhile Char.isDigit ≠ [] := by
      intro h0
      rw [h0] at hne
      simp at hne
    rcases hrest with hempty | hdotted
    · left
      have h0 : s.data.dropWhile Char.isDigit = [] := by
        simpa using hempty
      rw [h0, List.append_nil] at hsplit
      rw [← hsplit]
      exact ⟨hnnil, htdig⟩
    · right
      simp only [Bool.and_eq_true, decide_eq_true_eq] at hdotted
      cases hd : s.data.dropWhile Char.isDigit with
      | nil =>
        exfalso
        rw [hd] at hdotted
        simp at hdotted
      | cons x tl =>
        rw [hd] at hdotted
        rcases hdotted with ⟨⟨hdot, htlne⟩, htldig⟩
        simp only [List.headD_cons] at hdot
        subst hdot
        refine ⟨s.data.takeWhile Char.isDigit, tl, ?_, hnnil, ?_, htdig, ?_⟩
        · conv_lhs => rw [← hsplit]
          rw [hd]
        · intro h0
          rw [h0] at htlne
          simp at htlne
        · intro c hc
          exact List.all_eq_true.mp htldig c hc
  · intro h
    unfold isUnsignedNumStr
    simp only [Bool.and_eq_true, Bool.or_eq_true]
    rcases h with ⟨hne, hdig⟩ | ⟨a, b, hsd, hane, hbne, hadig, hbdig⟩
    · have hsp := takeWhile_all_digits hdig
      rw [hsp.1, hsp.2]
      constructor
      · simpa using hne
      · left
        rfl
    · have hdot : ('.' : Char).isDigit = false := by decide
      have hsp := takeWhile_digits_stop a b '.' hdot hadig
      rw [hsd, hsp.1, hsp.2]
      constructor
      · simpa using hane
      · right
        simp only [List.headD_cons, List.tail_cons, Bool.and_eq_true, decide_eq_true_eq]
        refine ⟨⟨trivial, by simpa using hbne⟩, ?_⟩
        rw [List.all_eq_true]
        exact hbdig

/-- A positional read with default is a member or the default. -/
theorem getD_mem_or_na (row : Row) (j : Nat) :
    row.getD j Cell.na ∈ row ∨ row.getD j Cell.na = Cell.na := by
  induction row generalizing j with
  | nil =>
    right
    rfl
  | cons c t ih =>
    cases j with
    | zero =>
      left
      exact List.mem_cons_self _ _
    | succ k =>
      rcases ih k with h | h
      · left
        exact List.mem_cons_of_mem _ h
      · right
        exact h

/-- A list fixed by a map is fixed pointwise. -/
theorem map_eq_self_forall {α : Type _} {f : α → α} {l : List α}
    (h : l.map f = l) : ∀ x ∈ l, f x = x := by
  induction l with
  | nil =>
    intro x hx
    simp at hx
  | cons a t ih =>
    rw [List.map_cons] at h
    injection h with h1 h2
    intro x hx
    rcases List.mem_cons.mp hx with rfl | hxt
    · exact h1
    · exact ih h2 x hxt

/-- In a table fixed by normalization, every cell is fixed by the
single-pass normalization. -/
theorem sanitize_fix_cells {df : Table} (h : sanitize_df df = df) :
    ∀ row ∈ df, ∀ c ∈ row, sanitizeCellSpec c = c := by
  rw [sanitize_df_eq_spec] at h
  intro row hrow c hc
  exact map_eq_self_forall (map_eq_self_forall h row hrow) c hc

/-- A text cell fixed by normalization is already stripped. -/
theorem stripped_of_fix {c : Cell} (h : sanitizeCellSpec c = c) :
    ∀ s : String, c = Cell.text s → pyStrip s = s := by
  intro s hs
  subst hs
  have h2 : (if pyStrip s = "" then Cell.na else Cell.text (pyStrip s)) = Cell.text s := h
  by_cases h0 : pyStrip s = ""
  · rw [if_pos h0] at h2
    cases h2
  · rw [if_neg h0] at h2
    injection h2

/-- On stripped cells the implementation's numeric test agrees with the
spec-side description. -/
theorem looksNumeric_iff_spec {c : Cell}
    (hstr : ∀ s : String, c = Cell.text s → pyStrip s = s) :
    (looksNumeric c = true ↔ numericLikeP c) := by
  cases c with
  | text s =>
    have hs : pyStrip s = s := hstr s rfl
    show isUnsignedNumStr (pyStrip s) = true ↔ specNumericText s.data
    rw [hs]
    exact isUnsignedNumStr_iff s
  | intv n => simp [looksNumeric, numericLikeP]
  | floatv q => simp [looksNumeric, numericLikeP]
  | na => simp [looksNumeric, numericLikeP]

/-- Claim C6: on normalized tables (tables fixed by `sanitize_df`, which
is what both workflows feed to every later stage), the Header Sniffer
returns false for fewer than two rows, and for at least two rows returns
true exactly when some column's first cell is text containing an ASCII
letter and some non-empty cell below it in that column is numeric or is
text matching the unsigned integer-or-decimal pattern. -/
theorem claim_C6_header_sniffer (df : Table) (hnorm : sanitize_df df = df) :
    (df.length < 2 → detect_header_row df = false) ∧
    (detect_header_row df = true ↔ headerQualifiesP df) := by
  cases df with
  | nil =>
    refine ⟨fun _ => rfl, ?_, ?_⟩
    · intro h
      exact Bool.noConfusion h
    · rintro ⟨first, rest, heq, -⟩
      simp at heq
  | cons first rest =>
    cases rest with
    | nil =>
      refine ⟨fun _ => rfl, ?_, ?_⟩
      · intro h
        exact Bool.noConfusion h
      · rintro ⟨first2, rest2, heq, hne2, -⟩
        injection heq with h1 h2
        exact absurd h2.symm hne2
    | cons r2 t2 =>
      have hstripped : ∀ row ∈ (r2 :: t2 : List Row), ∀ j : Nat,
          ∀ s2 : String, row.getD j Cell.na = Cell.text s2 → pyStrip s2 = s2 := by
        intro row hrow j s2 hs2
        rcases getD_mem_or_na row j with hmem | hna
        · have hfix := sanitize_fix_cells hnorm row
            (List.mem_cons_of_mem _ hrow) _ hmem
          exact stripped_of_fix hfix s2 hs2
        · rw [hna] at hs2
          cases hs2
      constructor
      · intro hlen
        exfalso
        simp only [List.length_cons] at hlen
        omega
      · have hdet : detect_header_row (first :: r2 :: t2) =
            (List.range first.length).any (fun j =>
              match first.getD j Cell.na with
              | Cell.text s => hasAlpha s &&
                  (r2 :: t2).any (fun row => looksNumeric (row.getD j Cell.na))
              | _ => false) := rfl
        rw [hdet, List.any_eq_true]
        constructor
        · rintro ⟨j, hjmem, hj⟩
          rw [List.mem_range] at hjmem
          cases hcell : first.getD j Cell.na with
          | text s =>
            have hj2 : (hasAlpha s &&
                (r2 :: t2).any (fun row => looksNumeric (row.getD j Cell.na))) = true := by
              rw [hcell] at hj
              exact hj
            simp only [Bool.and_eq_true] at hj2
            rcases hj2 with ⟨halpha, hany⟩
            rcases List.any_eq_true.mp hany with ⟨row, hrowmem, hrow⟩
            refine ⟨first, r2 :: t2, rfl, by simp, j, hjmem, s, hcell, ?_,
              row, hrowmem, ?_⟩
            · rw [hasAlpha, List.any_eq_true] at halpha
              rcases halpha with ⟨ch, hch, hcha⟩
              exact ⟨ch, hch, hcha⟩
            · exact (looksNumeric_iff_spec (hstripped row hrowmem j)).mp hrow
          | intv n =>
            rw [hcell] at hj
            exact Bool.noConfusion hj
          | floatv q =>
            rw [hcell] at hj
            exact Bool.noConfusion hj
          | na =>
            rw [hcell] at hj
            exact Bool.noConfusion hj
        · rintro ⟨first2, rest2, heq, -, j, hjlt, s, hcell, halpha, row, hrowmem, hnum⟩
          injection heq with h1 h2
          subst h1
          subst h2
          refine ⟨j, List.mem_range.mpr hjlt, ?_⟩
          rw [hcell]
          show (hasAlpha s &&
            (r2 :: t2).any (fun row => looksNumeric (row.getD j Cell.na))) = true
          simp only [Bool.and_eq_true]
          constructor
          · rw [hasAlpha, List.any_eq_true]
            rcases halpha with ⟨ch, hch, hcha⟩
            exact ⟨ch, hch, hcha⟩
          · rw [List.any_eq_true]
            exact ⟨row, hrowmem,
              (looksNumeric_iff_spec (hstripped row hrowmem j)).mpr hnum⟩

/-- Witness for claim C6 at a concrete input: the normalized table with
header row ["A"] above the numeric row [1] is detected as header-like. -/
theorem claim_C6_witness :
    sanitize_df [[Cell.text "A"], [Cell.intv 1]] = [[Cell.text "A"], [Cell.intv 1]] ∧
    detect_header_row [[Cell.text "A"], [Cell.intv 1]] = true := by
  refine ⟨by decide, ?_⟩
  apply (claim_C6_header_sniffer [[Cell.text "A"], [Cell.intv 1]] (by decide)).2.mpr
  refine ⟨[Cell.text "A"], [[Cell.intv 1]], rfl, by simp, 0, by simp, "A", rfl, ?_,
    [Cell.intv 1], by simp, ?_⟩
  · exact ⟨'A', by decide, by decide⟩
  · show numericLikeP (Cell.intv 1)
    trivial

/-- Witness for claim C5 at a concrete input: of two rows, the one with
an empty first cell is dropped, and the surviving row is its non-empty
cells with neither an empty row nor an empty cell in the output. -/
theorem claim_C5_witness :
    [Cell.text "A"] ∈
      process_plate_map_df [[Cell.text "A", Cell.na], [Cell.na, Cell.intv 1]] ∧
    ([Cell.text "A"] ≠ ([] : Row) ∧ ∀ c ∈ [Cell.text "A"], notna c = true) :=
  ⟨by decide,
    (claim_C5_plate_map_builder [[Cell.text "A", Cell.na], [Cell.na, Cell.intv 1]]).2.2
      [Cell.text "A"] (by decide)⟩
